import Mathlib

/-!
Shallow embedding of the Shopify-to-Xero month converter
(src/shopify_to_xero.py).  Monetary amounts are modelled as exact
rationals; the source's two-decimal output formatting is modelled by
rounding to an integer number of cents.  Python dictionaries are
modelled as insertion-ordered association lists, which matches the
iteration order the source relies on.
-/

/-- Whitespace test used by the embedding of Python's str.strip. -/
def isWS (c : Char) : Bool :=
  c == ' ' || c == '\t' || c == '\n' || c == '\r'

/-- Embedding of Python's str.strip(): drop whitespace at both ends. -/
def strip (s : String) : String :=
  ⟨((s.toList.dropWhile isWS).reverse.dropWhile isWS).reverse⟩

/-- Split a character list on a separator character. -/
def splitOnChar (sep : Char) : List Char → List (List Char)
  | [] => [[]]
  | c :: rest =>
    if c == sep then
      [] :: splitOnChar sep rest
    else
      match splitOnChar sep rest with
      | [] => [[c]]
      | g :: gs => (c :: g) :: gs

/-- Numeric value of a list of decimal digit characters. -/
def digitsVal (cs : List Char) : Nat :=
  cs.foldl (fun a c => a * 10 + (c.toNat - 48)) 0

/-- A nonempty list consisting only of decimal digits. -/
def allDigits (cs : List Char) : Bool :=
  !cs.isEmpty && cs.all (fun c => c.isDigit)

/-- Mantissa of a Python float literal: digits with an optional decimal
point, at least one digit overall. -/
def parseMant (cs : List Char) : Option ℚ :=
  match splitOnChar '.' cs with
  | [a] => if allDigits a then some ((digitsVal a : ℚ)) else none
  | [a, b] =>
    if a.all (fun c => c.isDigit) && b.all (fun c => c.isDigit)
        && (!a.isEmpty || !b.isEmpty) then
      some ((digitsVal a : ℚ) + (digitsVal b : ℚ) / (10 : ℚ) ^ b.length)
    else none
  | _ => none

/-- Exponent part of a Python float literal: optional sign and digits. -/
def parseExp (cs : List Char) : Option ℤ :=
  match cs with
  | '+' :: r => if allDigits r then some ((digitsVal r : ℤ)) else none
  | '-' :: r => if allDigits r then some (-(digitsVal r : ℤ)) else none
  | _ => if allDigits cs then some ((digitsVal cs : ℤ)) else none

/-- Split at the first exponent marker e or E, if any. -/
def splitExp : List Char → List Char × Option (List Char)
  | [] => ([], none)
  | c :: rest =>
    if c == 'e' || c == 'E' then ([], some rest)
    else
      match splitExp rest with
      | (a, b) => (c :: a, b)

/-- Unsigned part of Python float-literal parsing. -/
def pyFloatUnsigned (cs : List Char) : Option ℚ :=
  match splitExp cs with
  | (m, none) => parseMant m
  | (m, some ecs) =>
    match parseMant m, parseExp ecs with
    | some q, some e => some (q * (10 : ℚ) ^ e)
    | _, _ => none

/-- Embedding of Python's float(str) on finite decimal literals: an
optional sign, then a mantissa and optional exponent.  Inputs that do
not denote a finite rational value parse to none. -/
def pyFloat (cs : List Char) : Option ℚ :=
  match cs with
  | '+' :: rest => pyFloatUnsigned rest
  | '-' :: rest => (pyFloatUnsigned rest).map (fun q => -q)
  | _ => pyFloatUnsigned cs

/-- Embedding of safe_float: 0 for empty, "-", "nan" or unparseable
input, otherwise the parsed value after stripping whitespace and
removing thousands-separator commas. -/
def safe_float (value : String) : ℚ :=
  let t := strip value
  if value = "" || t = "" || t = "-" || t = "nan" then 0
  else
    match pyFloat (t.toList.filter (fun c => !(c == ','))) with
    | some q => q
    | none => 0

/-- The fixed payment-method table, in the source's insertion order. -/
def paymentMapping : List (String × String) :=
  [("Stripe", "102 - Stripe Account"),
   ("Cash on Delivery (COD)", "110 - Cash on Delivery"),
   ("Cash on Delivery (COD) + custom", "110 - Cash on Delivery"),
   ("Cash on Delivery (COD) + Bank Deposit", "110 - Cash on Delivery"),
   ("Tamara Split Payments", "111 - Tamara"),
   ("Tamara", "111 - Tamara"),
   ("Tabby", "112 - Tabby"),
   ("Custom (POS)", "113 - POS Account"),
   ("Card", "102 - Card Account"),
   ("Cash", "101 - Cash Account")]

/-- ASCII lower-casing of a character list (the table is ASCII). -/
def lowerL (cs : List Char) : List Char :=
  cs.map Char.toLower

/-- The first list is an initial segment of the second. -/
def leadsL : List Char → List Char → Bool
  | [], _ => true
  | _ :: _, [] => false
  | a :: as, b :: bs => a == b && leadsL as bs

/-- The first list occurs contiguously inside the second. -/
def occursIn : List Char → List Char → Bool
  | a, [] => leadsL a []
  | a, b :: bs => leadsL a (b :: bs) || occursIn a bs

/-- Embedding of get_payment_account: exact match on the trimmed input,
then first case-insensitive substring match in table order, then the
fixed default account. -/
def get_payment_account (payment_method : String) : String :=
  let p := strip payment_method
  match paymentMapping.find? (fun kv => kv.1 == p) with
  | some kv => kv.2
  | none =>
    match paymentMapping.find?
        (fun kv => occursIn (lowerL kv.1.toList) (lowerL p.toList)) with
    | some kv => kv.2
    | none => "102 - Stripe Account"

/-- One raw input row; the monetary fields are raw text. -/
structure Row where
  createdAt : String
  billingCountry : String
  subtotal : String
  shipping : String
  discountAmount : String
  taxes : String
  total : String
  paymentMethod : String
deriving DecidableEq

/-- Aggregate of one date's rows, as accumulated by process_single_date. -/
structure DailyTotals where
  subtotal : ℚ
  shipping : ℚ
  discount : ℚ
  taxes : ℚ
  total : ℚ
  payments : List (String × ℚ)
  zero_tax_revenue : ℚ
deriving DecidableEq

/-- Add an amount under a key in an insertion-ordered association list
(defaultdict semantics: new keys are appended at the end). -/
def addPayment : List (String × ℚ) → String → ℚ → List (String × ℚ)
  | [], k, v => [(k, v)]
  | (k1, v1) :: rest, k, v =>
    if k1 == k then (k1, v1 + v) :: rest
    else (k1, v1) :: addPayment rest k v

/-- The empty accumulator of the aggregation loop. -/
def initTotals : DailyTotals :=
  { subtotal := 0, shipping := 0, discount := 0, taxes := 0, total := 0,
    payments := [], zero_tax_revenue := 0 }

/-- One iteration of the aggregation loop in process_single_date. -/
def aggStep (t : DailyTotals) (r : Row) : DailyTotals :=
  let subtotal := safe_float r.subtotal
  let shipping := safe_float r.shipping
  let discount := safe_float r.discountAmount
  let taxes := safe_float r.taxes
  let total := safe_float r.total
  let pm := strip r.paymentMethod
  { subtotal := t.subtotal + subtotal,
    shipping := t.shipping + shipping,
    discount := t.discount + discount,
    taxes := t.taxes + taxes,
    total := t.total + total,
    payments := if pm = "" then t.payments else addPayment t.payments pm total,
    zero_tax_revenue :=
      if taxes = 0 ∧ 0 < subtotal then t.zero_tax_revenue + subtotal
      else t.zero_tax_revenue }

/-- The single aggregation pass over one date's rows. -/
def aggregate (rows : List Row) : DailyTotals :=
  rows.foldl aggStep initTotals

/-- A parsed day/month/year date. -/
structure PDate where
  day : Nat
  month : Nat
  year : Nat
deriving DecidableEq

/-- Gregorian leap-year test, as in Python's datetime. -/
def isLeap (y : Nat) : Bool :=
  (y % 4 == 0 && y % 100 != 0) || y % 400 == 0

/-- Days in a month, as validated by Python's datetime constructor. -/
def daysInMonth (m y : Nat) : Nat :=
  if m = 2 then (if isLeap y then 29 else 28)
  else if m = 4 ∨ m = 6 ∨ m = 9 ∨ m = 11 then 30
  else 31

/-- Embedding of datetime.strptime(s, d/m/Y): day and month of one or
two digits, year of exactly four digits, separated by slashes, with the
day validated against the month length. -/
def parseDate (s : String) : Option PDate :=
  match splitOnChar '/' s.toList with
  | [d, m, y] =>
    if allDigits d && decide (d.length ≤ 2)
        && allDigits m && decide (m.length ≤ 2)
        && allDigits y && decide (y.length = 4) then
      let dv := digitsVal d
      let mv := digitsVal m
      let yv := digitsVal y
      if 1 ≤ dv ∧ 1 ≤ mv ∧ mv ≤ 12 ∧ dv ≤ daysInMonth mv yv then
        some { day := dv, month := mv, year := yv }
      else none
    else none
  | _ => none

/-- Zero-padded two-digit rendering of a number below 100. -/
def pad2 (n : Nat) : String :=
  if n < 10 then "0" ++ toString n else toString n

/-- Embedding of strftime d.m.Y used for the narration text. -/
def dotFmt (d : PDate) : String :=
  pad2 d.day ++ "." ++ pad2 d.month ++ "." ++ toString d.year

/-- Chronological sort key of a date string; parseable strings compare
exactly as Python datetime values do. -/
def dateKeyStr (s : String) : Nat :=
  match parseDate s with
  | some d => d.year * 10000 + d.month * 100 + d.day
  | none => 0

/-- Rounding to a whole number of cents; models the two-decimal
formatting of amounts (Python formats the nearest representable double
and breaks sub-cent ties to even, which no claim depends on). -/
def roundCent (q : ℚ) : ℚ :=
  ((round (q * 100) : ℤ) : ℚ) / 100

/-- One output journal line; the amount holds the cent-rounded value
that the formatted text denotes. -/
structure Entry where
  narration : String
  date : String
  description : String
  accountCode : String
  taxRate : String
  amount : ℚ
deriving DecidableEq

/-- Construct a journal line the way process_single_date does. -/
def mkEntry (narr date acct rate : String) (amt : ℚ) : Entry :=
  { narration := narr, date := date, description := narr,
    accountCode := acct, taxRate := rate, amount := roundCent amt }

/-- The taxable-revenue formula of process_single_date. -/
def taxableRev (t : DailyTotals) : ℚ :=
  t.subtotal - t.zero_tax_revenue + t.discount

/-- Embedding of the journal-line construction of process_single_date:
taxable revenue, shipping, one line per positive payment method in
insertion order, discount, zero-rated revenue, each gated on strict
positivity. -/
def buildJournal (narr date : String) (t : DailyTotals) : List Entry :=
  (if 0 < taxableRev t then
    [mkEntry narr date "208 - Revenue - Shopify" "Output VAT 5% (5%)"
      (-taxableRev t)]
   else []) ++
  (if 0 < t.shipping then
    [mkEntry narr date "203 - Revenue - Shipping Retail"
      "Zero Rated Output VAT (0%)" (-t.shipping)]
   else []) ++
  ((t.payments.filter (fun kv => 0 < kv.2)).map
    (fun kv => mkEntry narr date (get_payment_account kv.1)
      "Tax Exempt (0%)" kv.2)) ++
  (if 0 < t.discount then
    [mkEntry narr date "205B - Sales Discount [Shopify]" "Output VAT 5% (5%)"
      t.discount]
   else []) ++
  (if 0 < t.zero_tax_revenue then
    [mkEntry narr date "208 - Revenue - Shopify" "Zero Rated Output VAT (0%)"
      (-t.zero_tax_revenue)]
   else [])

/-- Embedding of process_single_date; none models the ValueError raised
when the target date string does not parse. -/
def process_single_date (rows : List Row) (target : String) :
    Option (List Entry) :=
  if rows.isEmpty then some []
  else
    match parseDate target with
    | none => none
    | some d =>
      some (buildJournal ("Shopify Sales " ++ dotFmt d) target (aggregate rows))

/-- Month filter of the orchestrator: the stripped created-at text is
nonempty, parses, and falls in the target month and year. -/
def keepRow (m y : Nat) (r : Row) : Bool :=
  let c := strip r.createdAt
  !c.isEmpty &&
    match parseDate c with
    | some d => d.month == m && d.year == y
    | none => false

/-- Append a row to its date group, creating the group at the end on
first appearance (defaultdict-of-list semantics). -/
def addToGroup : List (String × List Row) → String → Row →
    List (String × List Row)
  | [], k, r => [(k, [r])]
  | (k1, rs) :: rest, k, r =>
    if k1 == k then (k1, rs ++ [r]) :: rest
    else (k1, rs) :: addToGroup rest k r

/-- Group the in-range rows by their exact stripped date string. -/
def buildGroups (m y : Nat) (rows : List Row) : List (String × List Row) :=
  rows.foldl
    (fun gs r => if keepRow m y r then addToGroup gs (strip r.createdAt) r else gs)
    []

/-- Comparison used to sort date groups chronologically. -/
def groupLE (g1 g2 : String × List Row) : Prop :=
  dateKeyStr g1.1 ≤ dateKeyStr g2.1

instance : DecidableRel groupLE :=
  fun g1 g2 => Nat.decLe (dateKeyStr g1.1) (dateKeyStr g2.1)

instance : IsTotal (String × List Row) groupLE :=
  ⟨fun g1 g2 => Nat.le_total (dateKeyStr g1.1) (dateKeyStr g2.1)⟩

instance : IsTrans (String × List Row) groupLE :=
  ⟨fun _ _ _ h1 h2 => Nat.le_trans h1 h2⟩

/-- Stable chronological sort of the date groups; a stable insertion
sort by parsed-date key agrees with Python's stable sorted(). -/
def sortGroups (gs : List (String × List Row)) : List (String × List Row) :=
  List.insertionSort groupLE gs

/-- All journal lines of the month, concatenated in date order; a date
whose processing fails contributes nothing, as with the caught
per-date exception in the source. -/
def allEntries (m y : Nat) (rows : List Row) : List Entry :=
  ((sortGroups (buildGroups m y rows)).map
    (fun g => (process_single_date g.2 g.1).getD [])).flatten

/-- Embedding of convert_whole_month_to_journal: none models the early
returns that produce no output artifact. -/
def convert_whole_month_to_journal (m y : Nat) (rows : List Row) :
    Option (List Entry) :=
  if buildGroups m y rows = [] then none
  else if allEntries m y rows = [] then none
  else some (allEntries m y rows)

/-- Signed sum of the emitted amounts, as in the balance verification. -/
def entriesSum (es : List Entry) : ℚ :=
  (es.map (fun e => e.amount)).sum

/-- Two-decimal rendering of a cent-rounded amount. -/
def fmtAmt (q : ℚ) : String :=
  let n : ℤ := round (q * 100)
  (if n < 0 then "-" else "") ++ toString (n.natAbs / 100) ++ "." ++
    pad2 (n.natAbs % 100)

/-- One CSV output record; no emitted field contains a separator, so
plain joining matches the csv writer. -/
def renderEntry (e : Entry) : String :=
  e.narration ++ "," ++ e.date ++ "," ++ e.description ++ "," ++
    e.accountCode ++ "," ++ e.taxRate ++ "," ++ fmtAmt e.amount ++ "\r\n"

/-- The full output table with its header row. -/
def renderCsv (es : List Entry) : String :=
  "*Narration,*Date,Description,*AccountCode,*Tax Rate,*Amount\r\n" ++
    String.join (es.map renderEntry)

/-- The bytes of the output artifact, when one is produced. -/
def runOutput (m y : Nat) (rows : List Row) : Option String :=
  (convert_whole_month_to_journal m y rows).map renderCsv

/-- Sum of a rational-valued function over a list. -/
def sumBy (l : List Row) (f : Row → ℚ) : ℚ :=
  (l.map f).sum

/-- Value under a key in a payment map, zero when absent. -/
def lookupQ : List (String × ℚ) → String → ℚ
  | [], _ => 0
  | (k1, v1) :: rest, k => if k1 = k then v1 else lookupQ rest k

/-- Sum of all values of a payment map. -/
def pvSum (ps : List (String × ℚ)) : ℚ :=
  (ps.map (fun kv => kv.2)).sum

/-- The amount is a whole number of cents. -/
def centExact (q : ℚ) : Prop :=
  (100 * q).den = 1

instance (q : ℚ) : Decidable (centExact q) :=
  inferInstanceAs (Decidable ((100 * q).den = 1))

/-! ### Helper lemmas -/

/-- Every result of get_payment_account is a value of the fixed table
(the default coincides with the Stripe entry's value). -/
theorem gpa_mem (s : String) :
    get_payment_account s ∈ paymentMapping.map Prod.snd := by
  simp only [get_payment_account]
  split
  · next kv h => exact List.mem_map_of_mem Prod.snd (List.mem_of_find?_eq_some h)
  · split
    · next kv h =>
      exact List.mem_map_of_mem Prod.snd (List.mem_of_find?_eq_some h)
    · decide

/-- Exact lookup of any table key returns that key's entry. -/
theorem find_exact_key :
    ∀ kv ∈ paymentMapping,
      paymentMapping.find? (fun x => x.1 == kv.1) = some kv := by decide

/-! ### C4 -/

/-- C4: map_payment_account is total (it always lands in the fixed
account table), an exact case-sensitive match of the trimmed input wins
over everything else, and otherwise the first case-insensitive
substring match in table order decides, with the fixed default account
when nothing matches. -/
theorem payment_account_resolution :
    (∀ kv ∈ paymentMapping, ∀ s : String,
      strip s = kv.1 → get_payment_account s = kv.2) ∧
    (∀ s : String, get_payment_account s ∈ paymentMapping.map Prod.snd) ∧
    (∀ s : String, (∀ kv ∈ paymentMapping, strip s ≠ kv.1) →
      (∀ kv2, paymentMapping.find?
          (fun kv => occursIn (lowerL kv.1.toList) (lowerL (strip s).toList))
            = some kv2 →
        get_payment_account s = kv2.2) ∧
      (paymentMapping.find?
          (fun kv => occursIn (lowerL kv.1.toList) (lowerL (strip s).toList))
            = none →
        get_payment_account s = "102 - Stripe Account")) := by
  refine ⟨?_, gpa_mem, ?_⟩
  · intro kv hkv s hs
    simp only [get_payment_account, hs, find_exact_key kv hkv]
  · intro s hne
    have h1 : paymentMapping.find? (fun kv => kv.1 == strip s) = none := by
      refine List.find?_eq_none.mpr ?_
      intro x hx
      simpa using fun h => hne x hx h.symm
    refine ⟨?_, ?_⟩
    · intro kv2 h2
      simp only [get_payment_account, h1, h2]
    · intro h2
      simp only [get_payment_account, h1, h2]

/-- Witness for C4: the input Cash with surrounding spaces trims to the
exact label Cash and resolves to the cash account. -/
theorem payment_account_resolution_witness :
    get_payment_account " Cash " = "101 - Cash Account" :=
  payment_account_resolution.1 ("Cash", "101 - Cash Account") (by decide)
    " Cash " (by decide)

/-! ### C5 -/

unseal Rat.add Rat.mul Rat.inv Rat.sub Rat.ofScientific in
/-- Concrete evaluation: the separator-stripped text 1,234.50 parses to
1234.50 exactly. -/
theorem safe_float_thousands : safe_float "1,234.50" = 1234.50 := by decide

/-- C5: normalize_amount is total, returns exactly 0 on the empty
string, the dash marker, the nan marker and every text its numeric
parser rejects, and parses thousands-separated numbers after stripping
whitespace and removing the separators. -/
theorem normalize_amount_lenient :
    safe_float "" = 0 ∧ safe_float "-" = 0 ∧ safe_float "nan" = 0 ∧
    (∀ s : String,
      pyFloat ((strip s).toList.filter (fun c => !(c == ','))) = none →
        safe_float s = 0) ∧
    safe_float "1,234.50" = 1234.50 := by
  refine ⟨by decide, by decide, by decide, ?_, safe_float_thousands⟩
  intro s h
  simp only [safe_float, h]
  split <;> rfl

/-- Witness for C5: the non-numeric text abc is rejected by the parser
and normalizes to exactly 0. -/
theorem normalize_amount_lenient_witness : safe_float "abc" = 0 :=
  normalize_amount_lenient.2.2.2.1 "abc" (by decide)

/-! ### C10 -/

/-- C10: a payment-method text that neither exactly equals any table
label after trimming nor contains any label case-insensitively resolves
to the default 102 - Stripe Account, the very account of the known
Stripe label, so such methods are indistinguishable from Stripe
payments in the output. -/
theorem unknown_payment_defaults_to_stripe (s : String)
    (h1 : ∀ kv ∈ paymentMapping, strip s ≠ kv.1)
    (h2 : ∀ kv ∈ paymentMapping,
      occursIn (lowerL kv.1.toList) (lowerL (strip s).toList) = false) :
    get_payment_account s = "102 - Stripe Account" ∧
      get_payment_account "Stripe" = "102 - Stripe Account" := by
  have hf : paymentMapping.find?
      (fun kv => occursIn (lowerL kv.1.toList) (lowerL (strip s).toList))
        = none :=
    List.find?_eq_none.mpr (by
      intro x hx
      have h := h2 x hx
      simp only [String.toList] at h
      simp [h])
  exact ⟨(payment_account_resolution.2.2 s h1).2 hf, by decide⟩

/-- Witness for C10: PayPal matches no table label exactly or as a
substring and is posted to the Stripe clearing account. -/
theorem unknown_payment_defaults_to_stripe_witness :
    get_payment_account "PayPal" = "102 - Stripe Account" ∧
      get_payment_account "Stripe" = "102 - Stripe Account" :=
  unknown_payment_defaults_to_stripe "PayPal" (by decide) (by decide)

/-- No payment-clearing account collides with the revenue, shipping or
discount accounts. -/
theorem gpa_ne (s : String) :
    get_payment_account s ≠ "208 - Revenue - Shopify" ∧
    get_payment_account s ≠ "203 - Revenue - Shipping Retail" ∧
    get_payment_account s ≠ "205B - Sales Discount [Shopify]" := by
  have h := gpa_mem s
  simp only [paymentMapping, List.map, List.mem_cons, List.not_mem_nil,
    or_false] at h
  rcases h with h | h | h | h | h | h | h | h | h | h <;> simp [h]

/-- Membership characterization of the emitted journal lines. -/
theorem mem_buildJournal {e : Entry} {narr date : String} {t : DailyTotals} :
    e ∈ buildJournal narr date t ↔
      (0 < taxableRev t ∧
        e = mkEntry narr date "208 - Revenue - Shopify" "Output VAT 5% (5%)"
          (-taxableRev t)) ∨
      (0 < t.shipping ∧
        e = mkEntry narr date "203 - Revenue - Shipping Retail"
          "Zero Rated Output VAT (0%)" (-t.shipping)) ∨
      (∃ kv, kv ∈ t.payments ∧ 0 < kv.2 ∧
        e = mkEntry narr date (get_payment_account kv.1) "Tax Exempt (0%)"
          kv.2) ∨
      (0 < t.discount ∧
        e = mkEntry narr date "205B - Sales Discount [Shopify]"
          "Output VAT 5% (5%)" t.discount) ∨
      (0 < t.zero_tax_revenue ∧
        e = mkEntry narr date "208 - Revenue - Shopify"
          "Zero Rated Output VAT (0%)" (-t.zero_tax_revenue)) := by
  simp only [buildJournal, List.mem_append, List.mem_ite_nil_right,
    List.mem_singleton, List.mem_map, List.mem_filter]
  constructor
  · rintro ((((⟨h, rfl⟩ | ⟨h, rfl⟩) | ⟨kv, ⟨hkv, hpos⟩, rfl⟩) | ⟨h, rfl⟩) |
      ⟨h, rfl⟩)
    · exact Or.inl ⟨h, rfl⟩
    · exact Or.inr (Or.inl ⟨h, rfl⟩)
    · exact Or.inr (Or.inr (Or.inl ⟨kv, hkv, by simpa using hpos, rfl⟩))
    · exact Or.inr (Or.inr (Or.inr (Or.inl ⟨h, rfl⟩)))
    · exact Or.inr (Or.inr (Or.inr (Or.inr ⟨h, rfl⟩)))
  · rintro (⟨h, rfl⟩ | ⟨h, rfl⟩ | ⟨kv, hkv, hpos, rfl⟩ | ⟨h, rfl⟩ | ⟨h, rfl⟩)
    · exact Or.inl (Or.inl (Or.inl (Or.inl ⟨h, rfl⟩)))
    · exact Or.inl (Or.inl (Or.inl (Or.inr ⟨h, rfl⟩)))
    · exact Or.inl (Or.inl (Or.inr ⟨kv, ⟨hkv, by simpa using hpos⟩, rfl⟩))
    · exact Or.inl (Or.inr ⟨h, rfl⟩)
    · exact Or.inr ⟨h, rfl⟩

/-! ### C2 -/

/-- C2: a category's line is present exactly when its aggregate amount
is strictly positive, and with all four scalar categories positive the
journal is literally the taxable-revenue line, the shipping line, one
line per positive payment method in insertion order, the discount line
and the zero-rated line, 2 + N + 2 lines in that fixed order. -/
theorem journal_lines_positivity_and_shape (t : DailyTotals)
    (narr date : String) :
    ((∃ e ∈ buildJournal narr date t,
        e.accountCode = "208 - Revenue - Shopify" ∧
        e.taxRate = "Output VAT 5% (5%)") ↔ 0 < taxableRev t) ∧
    ((∃ e ∈ buildJournal narr date t,
        e.accountCode = "203 - Revenue - Shipping Retail") ↔ 0 < t.shipping) ∧
    ((∃ e ∈ buildJournal narr date t, e.taxRate = "Tax Exempt (0%)") ↔
      ∃ kv ∈ t.payments, 0 < kv.2) ∧
    ((∃ e ∈ buildJournal narr date t,
        e.accountCode = "205B - Sales Discount [Shopify]") ↔ 0 < t.discount) ∧
    ((∃ e ∈ buildJournal narr date t,
        e.accountCode = "208 - Revenue - Shopify" ∧
        e.taxRate = "Zero Rated Output VAT (0%)") ↔
      0 < t.zero_tax_revenue) ∧
    (0 < taxableRev t → 0 < t.shipping → 0 < t.discount →
      0 < t.zero_tax_revenue →
      buildJournal narr date t =
        [mkEntry narr date "208 - Revenue - Shopify" "Output VAT 5% (5%)"
          (-taxableRev t),
         mkEntry narr date "203 - Revenue - Shipping Retail"
          "Zero Rated Output VAT (0%)" (-t.shipping)] ++
        (t.payments.filter (fun kv => 0 < kv.2)).map
          (fun kv => mkEntry narr date (get_payment_account kv.1)
            "Tax Exempt (0%)" kv.2) ++
        [mkEntry narr date "205B - Sales Discount [Shopify]"
          "Output VAT 5% (5%)" t.discount,
         mkEntry narr date "208 - Revenue - Shopify"
          "Zero Rated Output VAT (0%)" (-t.zero_tax_revenue)] ∧
      (buildJournal narr date t).length =
        2 + ((t.payments.filter (fun kv => 0 < kv.2)).length) + 2) := by
  refine ⟨?_, ?_, ?_, ?_, ?_, ?_⟩
  · constructor
    · rintro ⟨e, he, hacct, hrate⟩
      rw [mem_buildJournal] at he
      rcases he with ⟨h, rfl⟩ | ⟨h, rfl⟩ | ⟨kv, hkv, hpos, rfl⟩ | ⟨h, rfl⟩ |
        ⟨h, rfl⟩
      · exact h
      · simp [mkEntry] at hacct
      · simp [mkEntry] at hrate
      · simp [mkEntry] at hacct
      · simp [mkEntry] at hrate
    · intro h
      exact ⟨_, mem_buildJournal.mpr (Or.inl ⟨h, rfl⟩), by simp [mkEntry],
        by simp [mkEntry]⟩
  · constructor
    · rintro ⟨e, he, hacct⟩
      rw [mem_buildJournal] at he
      rcases he with ⟨h, rfl⟩ | ⟨h, rfl⟩ | ⟨kv, hkv, hpos, rfl⟩ | ⟨h, rfl⟩ |
        ⟨h, rfl⟩
      · simp [mkEntry] at hacct
      · exact h
      · simp only [mkEntry] at hacct
        exact absurd hacct (gpa_ne kv.1).2.1
      · simp [mkEntry] at hacct
      · simp [mkEntry] at hacct
    · intro h
      exact ⟨_, mem_buildJournal.mpr (Or.inr (Or.inl ⟨h, rfl⟩)),
        by simp [mkEntry]⟩
  · constructor
    · rintro ⟨e, he, hrate⟩
      rw [mem_buildJournal] at he
      rcases he with ⟨h, rfl⟩ | ⟨h, rfl⟩ | ⟨kv, hkv, hpos, rfl⟩ | ⟨h, rfl⟩ |
        ⟨h, rfl⟩
      · simp [mkEntry] at hrate
      · simp [mkEntry] at hrate
      · exact ⟨kv, hkv, hpos⟩
      · simp [mkEntry] at hrate
      · simp [mkEntry] at hrate
    · rintro ⟨kv, hkv, hpos⟩
      exact ⟨_, mem_buildJournal.mpr (Or.inr (Or.inr (Or.inl
        ⟨kv, hkv, hpos, rfl⟩))), by simp [mkEntry]⟩
  · constructor
    · rintro ⟨e, he, hacct⟩
      rw [mem_buildJournal] at he
      rcases he with ⟨h, rfl⟩ | ⟨h, rfl⟩ | ⟨kv, hkv, hpos, rfl⟩ | ⟨h, rfl⟩ |
        ⟨h, rfl⟩
      · simp [mkEntry] at hacct
      · simp [mkEntry] at hacct
      · simp only [mkEntry] at hacct
        exact absurd hacct (gpa_ne kv.1).2.2
      · exact h
      · simp [mkEntry] at hacct
    · intro h
      exact ⟨_, mem_buildJournal.mpr (Or.inr (Or.inr (Or.inr (Or.inl
        ⟨h, rfl⟩)))), by simp [mkEntry]⟩
  · constructor
    · rintro ⟨e, he, hacct, hrate⟩
      rw [mem_buildJournal] at he
      rcases he with ⟨h, rfl⟩ | ⟨h, rfl⟩ | ⟨kv, hkv, hpos, rfl⟩ | ⟨h, rfl⟩ |
        ⟨h, rfl⟩
      · simp [mkEntry] at hrate
      · simp [mkEntry] at hacct
      · simp [mkEntry] at hrate
      · simp [mkEntry] at hacct
      · exact h
    · intro h
      exact ⟨_, mem_buildJournal.mpr (Or.inr (Or.inr (Or.inr (Or.inr
        ⟨h, rfl⟩)))), by simp [mkEntry], by simp [mkEntry]⟩
  · intro h1 h2 h3 h4
    constructor
    · simp [buildJournal, h1, h2, h3, h4]
    · simp [buildJournal, h1, h2, h3, h4]
      ring

unseal Rat.add Rat.mul Rat.inv Rat.sub Rat.ofScientific in
/-- Witness for C2: a concrete aggregate with every category positive
and one positive payment method emits exactly the five lines in order. -/
theorem journal_lines_positivity_and_shape_witness :
    buildJournal "n" "d"
      { subtotal := 120, shipping := 10, discount := 5, taxes := 5,
        total := 135, payments := [("Stripe", 115), ("Cash", 20)],
        zero_tax_revenue := 20 } =
      [mkEntry "n" "d" "208 - Revenue - Shopify" "Output VAT 5% (5%)" (-105),
       mkEntry "n" "d" "203 - Revenue - Shipping Retail"
        "Zero Rated Output VAT (0%)" (-10),
       mkEntry "n" "d" "102 - Stripe Account" "Tax Exempt (0%)" 115,
       mkEntry "n" "d" "101 - Cash Account" "Tax Exempt (0%)" 20,
       mkEntry "n" "d" "205B - Sales Discount [Shopify]" "Output VAT 5% (5%)" 5,
       mkEntry "n" "d" "208 - Revenue - Shopify" "Zero Rated Output VAT (0%)"
        (-20)] := by
  have h := ((journal_lines_positivity_and_shape
    { subtotal := 120, shipping := 10, discount := 5, taxes := 5,
      total := 135, payments := [("Stripe", 115), ("Cash", 20)],
      zero_tax_revenue := 20 } "n" "d").2.2.2.2.2
    (by norm_num [taxableRev]) (by norm_num) (by norm_num) (by norm_num)).1
  rw [h]
  norm_num [taxableRev]
  constructor
  · decide
  · decide

/-! ### C3 -/

/-- The single-order example of the specification: one order dated
01/03/2025 paid via Stripe. -/
def exampleRow : Row :=
  { createdAt := "01/03/2025", billingCountry := "AE", subtotal := "100.00",
    shipping := "10.00", discountAmount := "5.00", taxes := "5.00",
    total := "110.00", paymentMethod := "Stripe" }

unseal Rat.add Rat.mul Rat.inv Rat.sub Rat.ofScientific in
/-- Concrete run of the spec's end-to-end example: exactly the four
claimed lines, in order, with the claimed accounts, rates and amounts. -/
theorem example_run :
    process_single_date [exampleRow] "01/03/2025" =
      some [mkEntry "Shopify Sales 01.03.2025" "01/03/2025"
              "208 - Revenue - Shopify" "Output VAT 5% (5%)" (-105),
            mkEntry "Shopify Sales 01.03.2025" "01/03/2025"
              "203 - Revenue - Shipping Retail" "Zero Rated Output VAT (0%)"
              (-10),
            mkEntry "Shopify Sales 01.03.2025" "01/03/2025"
              "102 - Stripe Account" "Tax Exempt (0%)" 110,
            mkEntry "Shopify Sales 01.03.2025" "01/03/2025"
              "205B - Sales Discount [Shopify]" "Output VAT 5% (5%)" 5] := by
  decide

/-- C3: whenever the computed taxable revenue is positive the first
emitted line is the credit of subtotal minus zero-tax revenue plus
discount against the standard revenue account at the standard VAT rate,
and on the spec's single-order example the journal is exactly the four
claimed lines. -/
theorem taxable_revenue_line_and_example (t : DailyTotals)
    (narr date : String)
    (h : 0 < t.subtotal - t.zero_tax_revenue + t.discount) :
    (buildJournal narr date t).head? =
      some (mkEntry narr date "208 - Revenue - Shopify" "Output VAT 5% (5%)"
        (-(t.subtotal - t.zero_tax_revenue + t.discount))) ∧
    process_single_date [exampleRow] "01/03/2025" =
      some [mkEntry "Shopify Sales 01.03.2025" "01/03/2025"
              "208 - Revenue - Shopify" "Output VAT 5% (5%)" (-105),
            mkEntry "Shopify Sales 01.03.2025" "01/03/2025"
              "203 - Revenue - Shipping Retail" "Zero Rated Output VAT (0%)"
              (-10),
            mkEntry "Shopify Sales 01.03.2025" "01/03/2025"
              "102 - Stripe Account" "Tax Exempt (0%)" 110,
            mkEntry "Shopify Sales 01.03.2025" "01/03/2025"
              "205B - Sales Discount [Shopify]" "Output VAT 5% (5%)" 5] := by
  refine ⟨?_, example_run⟩
  have h1 : 0 < taxableRev t := h
  rw [buildJournal, if_pos h1]
  rfl

/-- Witness for C3: the positivity hypothesis discharged on the
aggregate of the example order itself. -/
theorem taxable_revenue_line_and_example_witness :
    (buildJournal "n" "d"
      { subtotal := 100, shipping := 10, discount := 5, taxes := 5,
        total := 110, payments := [("Stripe", 110)],
        zero_tax_revenue := 0 }).head? =
      some (mkEntry "n" "d" "208 - Revenue - Shopify" "Output VAT 5% (5%)"
        (-(100 - 0 + 5))) :=
  (taxable_revenue_line_and_example
    { subtotal := 100, shipping := 10, discount := 5, taxes := 5,
      total := 110, payments := [("Stripe", 110)], zero_tax_revenue := 0 }
    "n" "d" (by norm_num)).1

/-! ### Cent-exactness -/

/-- An amount is a whole number of cents exactly when one hundred times
it is an integer. -/
theorem centExact_iff (q : ℚ) : centExact q ↔ ∃ n : ℤ, 100 * q = (n : ℚ) := by
  constructor
  · intro h
    exact ⟨(100 * q).num, ((Rat.den_eq_one_iff (100 * q)).mp h).symm⟩
  · rintro ⟨n, hn⟩
    unfold centExact
    rw [hn]
    exact Rat.den_intCast n

/-- Zero is cent-exact. -/
theorem centExact_zero : centExact 0 := by
  rw [centExact_iff]
  exact ⟨0, by norm_num⟩

/-- Cent-exact amounts are closed under addition. -/
theorem centExact_add {a b : ℚ} (ha : centExact a) (hb : centExact b) :
    centExact (a + b) := by
  rw [centExact_iff] at ha hb ⊢
  obtain ⟨na, hna⟩ := ha
  obtain ⟨nb, hnb⟩ := hb
  exact ⟨na + nb, by push_cast; rw [mul_add, hna, hnb]⟩

/-- Cent-exact amounts are closed under negation. -/
theorem centExact_neg {a : ℚ} (ha : centExact a) : centExact (-a) := by
  rw [centExact_iff] at ha ⊢
  obtain ⟨na, hna⟩ := ha
  exact ⟨-na, by push_cast; rw [mul_neg, hna]⟩

/-- Cent-exact amounts are closed under subtraction. -/
theorem centExact_sub {a b : ℚ} (ha : centExact a) (hb : centExact b) :
    centExact (a - b) := by
  rw [sub_eq_add_neg]
  exact centExact_add ha (centExact_neg hb)

/-- Rounding to cents leaves a cent-exact amount unchanged. -/
theorem roundCent_eq {q : ℚ} (h : centExact q) : roundCent q = q := by
  rw [centExact_iff] at h
  obtain ⟨n, hn⟩ := h
  unfold roundCent
  rw [mul_comm, hn, round_intCast]
  rw [mul_comm] at hn
  field_simp at hn ⊢
  linarith

/-- Sums of cent-exact summands are cent-exact. -/
theorem centExact_sumBy {l : List Row} {f : Row → ℚ}
    (h : ∀ r ∈ l, centExact (f r)) : centExact (sumBy l f) := by
  induction l with
  | nil => simpa [sumBy] using centExact_zero
  | cons r rest ih =>
    have h1 : centExact (f r) := h r (List.mem_cons_self r rest)
    have h2 : centExact (sumBy rest f) :=
      ih fun x hx => h x (List.mem_cons_of_mem r hx)
    simpa [sumBy] using centExact_add h1 h2

/-! ### Association-list lemmas -/

/-- Adding under a key raises exactly that key's looked-up value. -/
theorem lookupQ_addPayment (ps : List (String × ℚ)) (k m : String) (v : ℚ) :
    lookupQ (addPayment ps k v) m =
      lookupQ ps m + (if k = m then v else 0) := by
  induction ps with
  | nil =>
    by_cases h : k = m <;> simp [addPayment, lookupQ, h]
  | cons hd tl ih =>
    obtain ⟨k1, v1⟩ := hd
    by_cases h1 : k1 = k
    · subst h1
      by_cases h2 : k1 = m <;> simp [addPayment, lookupQ, h2]
    · by_cases h2 : k1 = m
      · subst h2
        have : ¬ k = k1 := fun h => h1 h.symm
        simp [addPayment, lookupQ, h1, this, beq_iff_eq]
      · simp [addPayment, lookupQ, h1, h2, beq_iff_eq, ih]

/-- Every entry after an addition carries the added key or was already
present. -/
theorem mem_addPayment {ps : List (String × ℚ)} {k : String} {v : ℚ}
    {kv : String × ℚ} (h : kv ∈ addPayment ps k v) :
    kv.1 = k ∨ kv ∈ ps := by
  induction ps with
  | nil =>
    simp [addPayment] at h
    subst h
    exact Or.inl rfl
  | cons hd tl ih =>
    obtain ⟨k1, v1⟩ := hd
    by_cases h1 : k1 = k
    · subst h1
      simp [addPayment] at h
      rcases h with h | h
      · exact Or.inl (by rw [h])
      · exact Or.inr (List.mem_cons_of_mem _ h)
    · simp [addPayment, h1, beq_iff_eq] at h
      rcases h with h | h
      · exact Or.inr (by simp [h])
      · rcases ih h with h2 | h2
        · exact Or.inl h2
        · exact Or.inr (List.mem_cons_of_mem _ h2)

/-- Adding under a key raises the total of all values by the amount. -/
theorem pvSum_addPayment (ps : List (String × ℚ)) (k : String) (v : ℚ) :
    pvSum (addPayment ps k v) = pvSum ps + v := by
  induction ps with
  | nil => simp [addPayment, pvSum]
  | cons hd tl ih =>
    obtain ⟨k1, v1⟩ := hd
    by_cases h1 : k1 = k
    · subst h1
      simp [addPayment, pvSum]
      ring
    · have ih2 := ih
      simp only [pvSum] at ih2
      simp [addPayment, pvSum, h1, beq_iff_eq, ih2]
      ring

/-! ### Aggregation-pass lemmas -/

/-- The subtotal accumulator sums the normalized subtotals. -/
theorem foldl_agg_subtotal (rows : List Row) : ∀ t : DailyTotals,
    (rows.foldl aggStep t).subtotal =
      t.subtotal + sumBy rows (fun r => safe_float r.subtotal) := by
  induction rows with
  | nil => intro t; simp [sumBy]
  | cons r rest ih =>
    intro t
    simp only [List.foldl_cons, ih, aggStep, sumBy, List.map_cons,
      List.sum_cons]
    ring

/-- The shipping accumulator sums the normalized shipping amounts. -/
theorem foldl_agg_shipping (rows : List Row) : ∀ t : DailyTotals,
    (rows.foldl aggStep t).shipping =
      t.shipping + sumBy rows (fun r => safe_float r.shipping) := by
  induction rows with
  | nil => intro t; simp [sumBy]
  | cons r rest ih =>
    intro t
    simp only [List.foldl_cons, ih, aggStep, sumBy, List.map_cons,
      List.sum_cons]
    ring

/-- The discount accumulator sums the normalized discounts. -/
theorem foldl_agg_discount (rows : List Row) : ∀ t : DailyTotals,
    (rows.foldl aggStep t).discount =
      t.discount + sumBy rows (fun r => safe_float r.discountAmount) := by
  induction rows with
  | nil => intro t; simp [sumBy]
  | cons r rest ih =>
    intro t
    simp only [List.foldl_cons, ih, aggStep, sumBy, List.map_cons,
      List.sum_cons]
    ring

/-- The tax accumulator sums the normalized taxes. -/
theorem foldl_agg_taxes (rows : List Row) : ∀ t : DailyTotals,
    (rows.foldl aggStep t).taxes =
      t.taxes + sumBy rows (fun r => safe_float r.taxes) := by
  induction rows with
  | nil => intro t; simp [sumBy]
  | cons r rest ih =>
    intro t
    simp only [List.foldl_cons, ih, aggStep, sumBy, List.map_cons,
      List.sum_cons]
    ring

/-- The total accumulator sums the normalized totals. -/
theorem foldl_agg_total (rows : List Row) : ∀ t : DailyTotals,
    (rows.foldl aggStep t).total =
      t.total + sumBy rows (fun r => safe_float r.total) := by
  induction rows with
  | nil => intro t; simp [sumBy]
  | cons r rest ih =>
    intro t
    simp only [List.foldl_cons, ih, aggStep, sumBy, List.map_cons,
      List.sum_cons]
    ring

/-- The zero-tax accumulator sums the subtotals of exactly the rows
with zero normalized tax and positive normalized subtotal. -/
theorem foldl_agg_zt (rows : List Row) : ∀ t : DailyTotals,
    (rows.foldl aggStep t).zero_tax_revenue =
      t.zero_tax_revenue +
        sumBy (rows.filter
            (fun r => decide (safe_float r.taxes = 0 ∧ 0 < safe_float r.subtotal)))
          (fun r => safe_float r.subtotal) := by
  induction rows with
  | nil => intro t; simp [sumBy]
  | cons r rest ih =>
    intro t
    simp only [List.foldl_cons, ih]
    by_cases h : safe_float r.taxes = 0 ∧ 0 < safe_float r.subtotal <;>
      simp [aggStep, h, List.filter_cons, sumBy] <;> ring

/-- The per-method accumulator holds, for each nonempty method text,
the sum of normalized totals of that method's rows. -/
theorem foldl_agg_lookup (rows : List Row) (m : String) (hm : m ≠ "") :
    ∀ t : DailyTotals,
    lookupQ (rows.foldl aggStep t).payments m =
      lookupQ t.payments m +
        sumBy (rows.filter (fun r => strip r.paymentMethod == m))
          (fun r => safe_float r.total) := by
  induction rows with
  | nil => intro t; simp [sumBy]
  | cons r rest ih =>
    intro t
    simp only [List.foldl_cons, ih]
    by_cases hpm : strip r.paymentMethod = ""
    · have hmm : ¬ ("" = m) := fun h => hm h.symm
      simp [aggStep, hpm, List.filter_cons, hmm, sumBy]
    · by_cases heq : strip r.paymentMethod = m
      · simp [aggStep, hpm, List.filter_cons, heq, hm, lookupQ_addPayment,
          sumBy]
        ring
      · have hne2 : (strip r.paymentMethod == m) = false := by simp [heq]
        simp [aggStep, hpm, List.filter_cons, hne2, heq, lookupQ_addPayment,
          sumBy]

/-- No key of the per-method accumulator is the empty text. -/
theorem foldl_agg_keys (rows : List Row) : ∀ t : DailyTotals,
    (∀ kv ∈ t.payments, kv.1 ≠ "") →
    ∀ kv ∈ (rows.foldl aggStep t).payments, kv.1 ≠ "" := by
  induction rows with
  | nil => intro t ht; exact ht
  | cons r rest ih =>
    intro t ht
    refine ih (aggStep t r) ?_
    intro kv hkv
    by_cases hpm : strip r.paymentMethod = ""
    · simp only [aggStep, hpm, if_pos] at hkv
      exact ht kv (by simpa using hkv)
    · simp only [aggStep] at hkv
      rw [if_neg hpm] at hkv
      rcases mem_addPayment hkv with h | h
      · rw [h]; exact hpm
      · exact ht kv h

/-- A value property closed under addition is preserved by addPayment. -/
theorem addPayment_values {P : ℚ → Prop}
    (hP : ∀ a b, P a → P b → P (a + b)) {ps : List (String × ℚ)}
    {k : String} {v : ℚ} (hps : ∀ kv ∈ ps, P kv.2) (hv : P v) :
    ∀ kv ∈ addPayment ps k v, P kv.2 := by
  induction ps with
  | nil =>
    intro kv hkv
    simp [addPayment] at hkv
    rw [hkv]
    exact hv
  | cons hd tl ih =>
    obtain ⟨k1, v1⟩ := hd
    intro kv hkv
    by_cases h1 : k1 = k
    · subst h1
      simp [addPayment] at hkv
      rcases hkv with h | h
      · rw [h]
        exact hP v1 v (hps (k1, v1) (by simp)) hv
      · exact hps kv (List.mem_cons_of_mem _ h)
    · simp [addPayment, h1, beq_iff_eq] at hkv
      rcases hkv with h | h
      · rw [h]
        exact hps (k1, v1) (by simp)
      · exact ih (fun kv2 hkv2 => hps kv2 (List.mem_cons_of_mem _ hkv2)) kv h

/-- A value property of all row totals, closed under addition, holds of
every accumulated per-method value. -/
theorem foldl_agg_values {P : ℚ → Prop}
    (hP : ∀ a b, P a → P b → P (a + b)) (rows : List Row)
    (hrows : ∀ r ∈ rows, P (safe_float r.total)) : ∀ t : DailyTotals,
    (∀ kv ∈ t.payments, P kv.2) →
    ∀ kv ∈ (rows.foldl aggStep t).payments, P kv.2 := by
  induction rows with
  | nil => intro t ht; exact ht
  | cons r rest ih =>
    intro t ht
    refine ih (fun x hx => hrows x (List.mem_cons_of_mem r hx))
      (aggStep t r) ?_
    intro kv hkv
    by_cases hpm : strip r.paymentMethod = ""
    · simp only [aggStep, hpm, if_pos] at hkv
      exact ht kv (by simpa using hkv)
    · simp only [aggStep] at hkv
      rw [if_neg hpm] at hkv
      exact addPayment_values hP ht
        (hrows r (List.mem_cons_self r rest)) kv hkv

/-- The values of the per-method accumulator sum to the totals of all
rows with a nonempty method text. -/
theorem foldl_agg_pvSum (rows : List Row) : ∀ t : DailyTotals,
    pvSum (rows.foldl aggStep t).payments =
      pvSum t.payments +
        sumBy (rows.filter (fun r => !(strip r.paymentMethod == "")))
          (fun r => safe_float r.total) := by
  induction rows with
  | nil => intro t; simp [sumBy]
  | cons r rest ih =>
    intro t
    simp only [List.foldl_cons, ih]
    by_cases hpm : strip r.paymentMethod = "" <;>
      simp [aggStep, hpm, List.filter_cons, pvSum_addPayment, sumBy] <;> ring

/-! ### C6 -/

/-- C6: one aggregation pass produces the five per-field sums, a
payment mapping whose nonempty-method entries each hold the sum of
their rows' normalized totals (and whose keys are never empty, so a
record contributes exactly when its method text is nonempty), and a
zero-tax accumulator summing the subtotals of exactly the records with
zero normalized tax and strictly positive normalized subtotal. -/
theorem daily_aggregation_correct (rows : List Row) :
    (aggregate rows).subtotal = sumBy rows (fun r => safe_float r.subtotal) ∧
    (aggregate rows).shipping = sumBy rows (fun r => safe_float r.shipping) ∧
    (aggregate rows).discount =
      sumBy rows (fun r => safe_float r.discountAmount) ∧
    (aggregate rows).taxes = sumBy rows (fun r => safe_float r.taxes) ∧
    (aggregate rows).total = sumBy rows (fun r => safe_float r.total) ∧
    (∀ m : String, m ≠ "" →
      lookupQ (aggregate rows).payments m =
        sumBy (rows.filter (fun r => strip r.paymentMethod == m))
          (fun r => safe_float r.total)) ∧
    (∀ kv ∈ (aggregate rows).payments, kv.1 ≠ "") ∧
    (aggregate rows).zero_tax_revenue =
      sumBy (rows.filter
          (fun r => decide (safe_float r.taxes = 0 ∧ 0 < safe_float r.subtotal)))
        (fun r => safe_float r.subtotal) := by
  unfold aggregate
  refine ⟨?_, ?_, ?_, ?_, ?_, ?_, ?_, ?_⟩
  · rw [foldl_agg_subtotal rows initTotals]
    simp [initTotals]
  · rw [foldl_agg_shipping rows initTotals]
    simp [initTotals]
  · rw [foldl_agg_discount rows initTotals]
    simp [initTotals]
  · rw [foldl_agg_taxes rows initTotals]
    simp [initTotals]
  · rw [foldl_agg_total rows initTotals]
    simp [initTotals]
  · intro m hm
    rw [foldl_agg_lookup rows m hm initTotals]
    simp [initTotals, lookupQ]
  · exact foldl_agg_keys rows initTotals (by simp [initTotals])
  · rw [foldl_agg_zt rows initTotals]
    simp [initTotals]

/-- Witness for C6: on the example order, the Stripe entry of the
payment mapping equals the filtered sum of totals. -/
theorem daily_aggregation_correct_witness :
    lookupQ (aggregate [exampleRow]).payments "Stripe" =
      sumBy ([exampleRow].filter (fun r => strip r.paymentMethod == "Stripe"))
        (fun r => safe_float r.total) :=
  (daily_aggregation_correct [exampleRow]).2.2.2.2.2.1 "Stripe" (by decide)

/-! ### Orchestrator lemmas -/

/-- Permuting a list of lists permutes its concatenation. -/
theorem flatten_perm_of_perm {α : Type} {L1 L2 : List (List α)}
    (h : L1.Perm L2) : L1.flatten.Perm L2.flatten := by
  induction h with
  | nil => exact List.Perm.refl _
  | cons x _ ih => simpa using ih.append_left x
  | swap x y l =>
    simp only [List.flatten_cons]
    rw [← List.append_assoc, ← List.append_assoc]
    exact (List.perm_append_comm).append_right _
  | trans _ _ ih1 ih2 => exact ih1.trans ih2

/-- Appending a row to its group inserts exactly that row into the
concatenation of all groups. -/
theorem flatten_addToGroup (gs : List (String × List Row)) (k : String)
    (r : Row) :
    ((addToGroup gs k r).map (fun g => g.2)).flatten.Perm
      ((gs.map (fun g => g.2)).flatten ++ [r]) := by
  induction gs with
  | nil => simp [addToGroup]
  | cons hd tl ih =>
    obtain ⟨k1, rs⟩ := hd
    by_cases h : k1 = k
    · simp only [addToGroup, h, beq_self_eq_true, if_true, List.map_cons,
        List.flatten_cons]
      rw [List.append_assoc, List.append_assoc]
      exact (@List.perm_append_comm _ [r] _).append_left rs
    · have hb : (k1 == k) = false := by simp [h]
      simp only [addToGroup, hb, Bool.false_eq_true, if_false, List.map_cons,
        List.flatten_cons]
      rw [List.append_assoc]
      exact ih.append_left rs

/-- Grouping keeps exactly the in-range rows: the concatenation of all
groups is a permutation of the filtered input. -/
theorem buildGroups_perm (m y : Nat) (rows : List Row) :
    ∀ gs : List (String × List Row),
    ((rows.foldl
        (fun gs r =>
          if keepRow m y r then addToGroup gs (strip r.createdAt) r else gs)
        gs).map (fun g => g.2)).flatten.Perm
      ((gs.map (fun g => g.2)).flatten ++ rows.filter (keepRow m y)) := by
  induction rows with
  | nil => intro gs; simp
  | cons r rest ih =>
    intro gs
    simp only [List.foldl_cons]
    by_cases h : keepRow m y r = true
    · rw [if_pos h, List.filter_cons_of_pos h]
      refine (ih (addToGroup gs (strip r.createdAt) r)).trans ?_
      refine ((flatten_addToGroup gs (strip r.createdAt) r).append_right
        _).trans ?_
      rw [List.append_assoc]
      exact List.Perm.refl _
    · rw [if_neg h, List.filter_cons_of_neg h]
      exact ih gs

/-- Every line built for a date carries that date's text. -/
theorem mem_buildJournal_date {e : Entry} {narr date : String}
    {t : DailyTotals} (h : e ∈ buildJournal narr date t) : e.date = date := by
  rw [mem_buildJournal] at h
  rcases h with ⟨_, rfl⟩ | ⟨_, rfl⟩ | ⟨kv, _, _, rfl⟩ | ⟨_, rfl⟩ | ⟨_, rfl⟩ <;>
    rfl

/-- Every line of a processed date carries the target date text. -/
theorem process_date {rows : List Row} {target : String} {es : List Entry}
    (h : process_single_date rows target = some es) :
    ∀ e ∈ es, e.date = target := by
  unfold process_single_date at h
  split at h
  · obtain rfl : ([] : List Entry) = es := Option.some.inj h
    intro e he
    simp at he
  · split at h
    · exact absurd h (by simp)
    · obtain rfl := (Option.some.inj h).symm
      intro e he
      exact mem_buildJournal_date he

/-- Every line contributed by one date group carries that group's key. -/
theorem mem_group_entries_date {rs : List Row} {k : String} {e : Entry}
    (h : e ∈ (process_single_date rs k).getD []) : e.date = k := by
  cases hp : process_single_date rs k with
  | none => rw [hp] at h; simp at h
  | some es =>
    rw [hp] at h
    exact process_date hp e (by simpa using h)

/-! ### C7 -/

/-- C7: the orchestrator processes exactly the input records whose
parsed date falls in the target month and year (a concatenation of its
date groups is a permutation of the filtered input, records with
unparseable dates are dropped, and in particular 31/01/2025 is excluded
for target 2/2025), and the dates of the emitted journal lines are
non-decreasing by parsed calendar date for every input row order. -/
theorem month_filter_and_chronological_order (m y : Nat) (rows : List Row) :
    ((sortGroups (buildGroups m y rows)).map (fun g => g.2)).flatten.Perm
      (rows.filter (keepRow m y)) ∧
    List.Pairwise (fun e1 e2 => dateKeyStr e1.date ≤ dateKeyStr e2.date)
      (allEntries m y rows) ∧
    (∀ r ∈ rows, parseDate (strip r.createdAt) = none →
      keepRow m y r = false) ∧
    keepRow 2 2025 { exampleRow with createdAt := "31/01/2025" } = false := by
  refine ⟨?_, ?_, ?_, by decide⟩
  · have h1 : (sortGroups (buildGroups m y rows)).Perm (buildGroups m y rows) :=
      List.perm_insertionSort groupLE _
    have h2 := flatten_perm_of_perm (h1.map (fun g => g.2))
    have h3 := buildGroups_perm m y rows []
    refine h2.trans ?_
    simpa [buildGroups] using h3
  · unfold allEntries
    rw [List.pairwise_flatten]
    constructor
    · intro l hl
      simp only [List.mem_map] at hl
      obtain ⟨g, _, rfl⟩ := hl
      refine List.pairwise_of_forall_mem_list ?_
      intro e1 h1 e2 h2
      rw [mem_group_entries_date h1, mem_group_entries_date h2]
    · rw [List.pairwise_map]
      have hs : List.Pairwise groupLE (sortGroups (buildGroups m y rows)) :=
        List.sorted_insertionSort groupLE _
      refine hs.imp ?_
      intro g1 g2 h12 e1 he1 e2 he2
      rw [mem_group_entries_date he1, mem_group_entries_date he2]
      exact h12
  · intro r _ h
    simp [keepRow, h]

/-- Witness for C7: a record with an unparseable date text is excluded
from the month filter. -/
theorem month_filter_and_chronological_order_witness :
    keepRow 2 2025 { exampleRow with createdAt := "zz" } = false :=
  (month_filter_and_chronological_order 2 2025
    [{ exampleRow with createdAt := "zz" }]).2.2.1 _ (by decide) (by decide)

/-! ### C8 -/

/-- C8: the run produces an output artifact exactly when at least one
journal line exists; with no in-range records, or no lines at all, it
terminates with no artifact. -/
theorem output_artifact_iff_lines (m y : Nat) (rows : List Row) :
    convert_whole_month_to_journal m y rows =
      (if allEntries m y rows = [] then none
       else some (allEntries m y rows)) := by
  unfold convert_whole_month_to_journal
  by_cases hg : buildGroups m y rows = []
  · have he : allEntries m y rows = [] := by
      unfold allEntries
      rw [hg]
      rfl
    simp [hg, he]
  · simp [hg]

/-! ### C9 -/

/-- C9: the orchestrator is a pure function of its inputs — two runs on
identical input rows for the same month and year produce byte-identical
output tables.  The real program's only ordering sources, dictionary
iteration and the stable sort, are modelled deterministically, exactly
as CPython fixes them. -/
theorem orchestrator_deterministic (m y : Nat) (rows1 rows2 : List Row)
    (h : rows1 = rows2) :
    runOutput m y rows1 = runOutput m y rows2 := by
  rw [h]

/-- Witness for C9: two runs on the example input render identically. -/
theorem orchestrator_deterministic_witness :
    runOutput 3 2025 [exampleRow] = runOutput 3 2025 [exampleRow] :=
  orchestrator_deterministic 3 2025 [exampleRow] [exampleRow] rfl

/-! ### Sum helper lemmas -/

/-- Summing a pointwise sum splits into two sums. -/
theorem sumBy_add (l : List Row) (f g : Row → ℚ) :
    sumBy l (fun r => f r + g r) = sumBy l f + sumBy l g := by
  induction l with
  | nil => simp [sumBy]
  | cons r rest ih =>
    unfold sumBy at ih ⊢
    simp only [List.map_cons, List.sum_cons, ih]
    ring

/-- Sums of pointwise-equal functions agree. -/
theorem sumBy_congr {l : List Row} {f g : Row → ℚ}
    (h : ∀ r ∈ l, f r = g r) : sumBy l f = sumBy l g := by
  unfold sumBy
  rw [List.map_congr_left h]

/-! ### C1 -/

/-- The signed sum of lines distributes over concatenation. -/
theorem entriesSum_append (a b : List Entry) :
    entriesSum (a ++ b) = entriesSum a + entriesSum b := by
  simp [entriesSum]

/-- The signed sum of the payment lines is the sum of the rounded
per-method amounts. -/
theorem entriesSum_map_pay (narr date : String) (ps : List (String × ℚ)) :
    entriesSum (ps.map (fun kv =>
        mkEntry narr date (get_payment_account kv.1) "Tax Exempt (0%)"
          kv.2)) =
      (ps.map (fun kv => roundCent kv.2)).sum := by
  induction ps with
  | nil => simp [entriesSum]
  | cons kv rest ih =>
    unfold entriesSum at ih ⊢
    simp only [List.map_cons, List.sum_cons, mkEntry] at ih ⊢
    rw [ih]

/-- A single order whose recorded total does not satisfy the accounting
identity total = subtotal + shipping + taxes. -/
def c1Row : Row :=
  { createdAt := "01/03/2025", billingCountry := "AE", subtotal := "100",
    shipping := "", discountAmount := "", taxes := "5", total := "0",
    paymentMethod := "" }

unseal Rat.add Rat.mul Rat.inv Rat.sub Rat.ofScientific in
/-- Counterexample to C1 as stated: for the date 01/03/2025 with one
order (subtotal 100, taxes 5, total 0, no payment method) the emitted
lines sum to -100, which differs from the date's recorded tax 5 by far
more than 0.01.  The source only logs the mismatch. -/
theorem daily_balance_claim_refuted :
    process_single_date [c1Row] "01/03/2025" =
      some [mkEntry "Shopify Sales 01.03.2025" "01/03/2025"
        "208 - Revenue - Shopify" "Output VAT 5% (5%)" (-100)] ∧
    ¬ |entriesSum [mkEntry "Shopify Sales 01.03.2025" "01/03/2025"
          "208 - Revenue - Shopify" "Output VAT 5% (5%)" (-100)] -
        (aggregate [c1Row]).taxes| < 1/100 := by
  constructor
  · decide
  · decide

/-- C1 (amended): for a date with at least one order, if every record
has a nonempty payment method, every record's normalized total equals
its normalized subtotal plus shipping plus taxes, all normalized
amounts are whole cents, the four scalar aggregates are strictly
positive and every accumulated payment total is positive, then the
signed sum of the emitted journal lines equals the date's recorded tax
exactly, in particular within the 0.01 tolerance. -/
theorem daily_balance_amended (rows : List Row) (target : String)
    (es : List Entry)
    (hne : rows ≠ [])
    (hproc : process_single_date rows target = some es)
    (hpm : ∀ r ∈ rows, strip r.paymentMethod ≠ "")
    (htot : ∀ r ∈ rows, safe_float r.total =
      safe_float r.subtotal + safe_float r.shipping + safe_float r.taxes)
    (hcent : ∀ r ∈ rows, centExact (safe_float r.subtotal) ∧
      centExact (safe_float r.shipping) ∧
      centExact (safe_float r.discountAmount) ∧
      centExact (safe_float r.taxes) ∧ centExact (safe_float r.total))
    (hpos : 0 < taxableRev (aggregate rows) ∧
      0 < (aggregate rows).shipping ∧ 0 < (aggregate rows).discount ∧
      0 < (aggregate rows).zero_tax_revenue)
    (hppos : ∀ kv ∈ (aggregate rows).payments, 0 < kv.2) :
    entriesSum es = (aggregate rows).taxes ∧
      |entriesSum es - (aggregate rows).taxes| < 1/100 := by
  obtain ⟨hp1, hp2, hp3, hp4⟩ := hpos
  have h0 : rows.isEmpty = false := by
    cases rows with
    | nil => exact absurd rfl hne
    | cons a l => rfl
  unfold process_single_date at hproc
  rw [h0] at hproc
  simp only [Bool.false_eq_true, if_false] at hproc
  cases hd : parseDate target with
  | none =>
    rw [hd] at hproc
    exact absurd hproc (by simp)
  | some d =>
    rw [hd] at hproc
    obtain rfl := (Option.some.inj hproc).symm
    have hC := daily_aggregation_correct rows
    have hsub : centExact (aggregate rows).subtotal := by
      rw [hC.1]
      exact centExact_sumBy (fun r hr => (hcent r hr).1)
    have hship : centExact (aggregate rows).shipping := by
      rw [hC.2.1]
      exact centExact_sumBy (fun r hr => (hcent r hr).2.1)
    have hdisc : centExact (aggregate rows).discount := by
      rw [hC.2.2.1]
      exact centExact_sumBy (fun r hr => (hcent r hr).2.2.1)
    have hzt : centExact (aggregate rows).zero_tax_revenue := by
      rw [hC.2.2.2.2.2.2.2]
      exact centExact_sumBy
        (fun r hr => (hcent r (List.mem_of_mem_filter hr)).1)
    have htr : centExact (taxableRev (aggregate rows)) :=
      centExact_add (centExact_sub hsub hzt) hdisc
    have hvals : ∀ kv ∈ (aggregate rows).payments, centExact kv.2 :=
      foldl_agg_values (fun _ _ ha hb => centExact_add ha hb) rows
        (fun r hr => (hcent r hr).2.2.2.2) initTotals (by simp [initTotals])
    have hfilter : (aggregate rows).payments.filter (fun kv => 0 < kv.2) =
        (aggregate rows).payments :=
      List.filter_eq_self.mpr (fun kv hkv => by simpa using hppos kv hkv)
    have hpv : pvSum (aggregate rows).payments =
        sumBy rows (fun r => safe_float r.total) := by
      have h := foldl_agg_pvSum rows initTotals
      have hfil : rows.filter (fun r => !(strip r.paymentMethod == "")) =
          rows :=
        List.filter_eq_self.mpr (fun r hr => by simpa using hpm r hr)
      rw [hfil] at h
      simpa [aggregate, initTotals, pvSum] using h
    have htot2 : sumBy rows (fun r => safe_float r.total) =
        sumBy rows (fun r => safe_float r.subtotal) +
        sumBy rows (fun r => safe_float r.shipping) +
        sumBy rows (fun r => safe_float r.taxes) := by
      rw [sumBy_congr htot]
      rw [sumBy_add rows
        (fun r => safe_float r.subtotal + safe_float r.shipping)
        (fun r => safe_float r.taxes)]
      rw [sumBy_add rows (fun r => safe_float r.subtotal)
        (fun r => safe_float r.shipping)]
    have hmapc : (aggregate rows).payments.map (fun kv => roundCent kv.2) =
        (aggregate rows).payments.map (fun kv => kv.2) :=
      List.map_congr_left (fun kv hkv => roundCent_eq (hvals kv hkv))
    have key : entriesSum (buildJournal ("Shopify Sales " ++ dotFmt d) target
        (aggregate rows)) = (aggregate rows).taxes := by
      rw [buildJournal, if_pos hp1, if_pos hp2, if_pos hp3, if_pos hp4,
        hfilter]
      rw [entriesSum_append, entriesSum_append, entriesSum_append,
        entriesSum_append, entriesSum_map_pay]
      simp only [entriesSum, List.map_cons, List.map_nil, List.sum_cons,
        List.sum_nil, mkEntry]
      rw [roundCent_eq (centExact_neg htr), roundCent_eq (centExact_neg hship),
        roundCent_eq hdisc, roundCent_eq (centExact_neg hzt), hmapc]
      have hpv2 : ((aggregate rows).payments.map (fun kv => kv.2)).sum =
          pvSum (aggregate rows).payments := rfl
      rw [hpv2, hpv, htot2]
      unfold taxableRev
      rw [hC.1, hC.2.1, hC.2.2.1, hC.2.2.2.1, hC.2.2.2.2.2.2.2]
      ring
    exact ⟨key, by rw [key, sub_self, abs_zero]; norm_num⟩

/-- First witness order for the amended balance invariant. -/
def w1Row : Row :=
  { createdAt := "01/03/2025", billingCountry := "AE", subtotal := "100",
    shipping := "10", discountAmount := "5", taxes := "5", total := "115",
    paymentMethod := "Stripe" }

/-- Second witness order: an international order with zero tax. -/
def w2Row : Row :=
  { createdAt := "01/03/2025", billingCountry := "US", subtotal := "20",
    shipping := "0", discountAmount := "0", taxes := "0", total := "20",
    paymentMethod := "Cash" }

unseal Rat.add Rat.mul Rat.inv Rat.sub Rat.ofScientific in
/-- Witness for the amended C1: on two concrete orders satisfying all
hypotheses the emitted lines sum exactly to the recorded tax of 5. -/
theorem daily_balance_amended_witness :
    entriesSum ((process_single_date [w1Row, w2Row] "01/03/2025").getD []) =
      (aggregate [w1Row, w2Row]).taxes ∧
    |entriesSum ((process_single_date [w1Row, w2Row] "01/03/2025").getD []) -
      (aggregate [w1Row, w2Row]).taxes| < 1/100 :=
  daily_balance_amended [w1Row, w2Row] "01/03/2025"
    ((process_single_date [w1Row, w2Row] "01/03/2025").getD [])
    (by decide) (by decide) (by decide) (by decide) (by decide) (by decide)
    (by decide)
